import Mathlib

/-!
Verification of the lint runner coordinator (pkg/lint/runner.go).

The Go file defines a `Runner` that executes a list of linters (engines)
with panic isolation (`runLinterSafe`), merges their issues, and drives an
ordered chain of processors over the merged issue set
(`processLintResults` / `processIssues`), returning the filtered issues and
a run-level error (`Run`).  `NewRunner` builds the fixed processor chain.

Go slices distinguish a nil slice from a non-nil empty slice; the runner's
code contains an explicit `if issues == nil` normalization step, so the
embedding models slices with a dedicated `GoSlice` type that keeps this
distinction.  External collaborators that are not part of the source file
(the linters themselves and the processor constructors from the
`processors` package) are taken as parameters of the embedding, so all
theorems are universally quantified over their behavior.
-/

set_option autoImplicit false

namespace Lint

/-- Model of a Go slice: `nil` is the nil slice, `mk l` a non-nil slice
holding the elements `l`.  `mk []` is the non-nil empty slice, distinct
from `nil` exactly as in Go. -/
inductive GoSlice (α : Type) where
  | nil : GoSlice α
  | mk : List α → GoSlice α
  deriving DecidableEq, Repr

namespace GoSlice

/-- The elements of a Go slice; a nil slice has none. -/
def elems {α : Type} : GoSlice α → List α
  | nil => []
  | mk l => l

/-- Go `len`: the length of a slice, 0 for nil. -/
def len {α : Type} (s : GoSlice α) : Nat := s.elems.length

/-- Go `s == nil` comparison for a slice. -/
def isNil {α : Type} : GoSlice α → Bool
  | nil => true
  | mk _ => false

/-- Go `append(a, b...)`: appending zero elements returns `a` unchanged
(with its nilness); appending at least one element yields a non-nil slice
with the concatenated elements. -/
def append {α : Type} (a b : GoSlice α) : GoSlice α :=
  if b.elems.isEmpty then a else mk (a.elems ++ b.elems)

/-- Go in-place update of every element (a `for i := range` loop):
preserves nilness. -/
def map {α : Type} (f : α → α) : GoSlice α → GoSlice α
  | nil => nil
  | mk l => mk (l.map f)

@[simp] theorem elems_nil {α : Type} : (nil : GoSlice α).elems = [] := rfl

@[simp] theorem elems_mk {α : Type} (l : List α) : (mk l).elems = l := rfl

@[simp] theorem elems_map {α : Type} (f : α → α) (s : GoSlice α) :
    (s.map f).elems = s.elems.map f := by
  cases s <;> rfl

@[simp] theorem elems_append {α : Type} (a b : GoSlice α) :
    (a.append b).elems = a.elems ++ b.elems := by
  unfold append
  split
  · next h =>
    simp [List.isEmpty_iff] at h
    simp [h]
  · rfl

theorem len_zero_of_isNil {α : Type} (s : GoSlice α) (h : s.isNil = true) :
    s.len = 0 := by
  cases s with
  | nil => rfl
  | mk l => simp [isNil] at h

theorem isNil_false_of_len_ne_zero {α : Type} (s : GoSlice α) (h : s.len ≠ 0) :
    s.isNil = false := by
  cases s with
  | nil => exact absurd rfl h
  | mk l => rfl

end GoSlice

/-- Model of `result.Issue`: the runner only reads and writes the
`FromLinter` field; `Text` stands for the rest of the issue's payload and
makes issues distinguishable. -/
structure Issue where
  FromLinter : String
  Text : String
  deriving DecidableEq, Repr

/-- Go `processorStat`: per-processor accumulated in/out counters. -/
structure ProcessorStat where
  inCount : Nat
  outCount : Nat
  deriving DecidableEq, Repr

/-- The stats map `map[string]processorStat`, as an association list. -/
abbrev StatMap : Type := List (String × ProcessorStat)

/-- Go `stat := statPerProcessor[p.Name()]; stat.inCount += len(issues);
stat.outCount += len(newIssues); statPerProcessor[p.Name()] = stat`:
read-modify-write of the map entry, starting from the zero value when the
key is absent. -/
def statAdd : StatMap → String → Nat → Nat → StatMap
  | [], k, din, dout => [(k, ⟨din, dout⟩)]
  | (k', s) :: rest, k, din, dout =>
    if k' = k then (k', ⟨s.inCount + din, s.outCount + dout⟩) :: rest
    else (k', s) :: statAdd rest k din dout

/-- Model of `processors.Processor`: a named stage with a
`Process(issues) (issues, error)` transform.  `Finish` has no observable
return value; its invocations are recorded by the driver as a trace.
Errors are modelled as `Option String`. -/
structure Processor where
  name : String
  process : GoSlice Issue → GoSlice Issue × Option String

/-- The `Runner` struct (its logger is irrelevant to the verified
behavior). -/
structure Runner where
  Processors : List Processor

/-- One recorded `Process` invocation: which processor ran, the slice it
received, the slice it returned and the error it returned. -/
structure ProcCall where
  name : String
  input : GoSlice Issue
  output : GoSlice Issue
  err : Option String
  deriving DecidableEq, Repr

/-- The `if issues == nil { issues = []result.Issue{} }` normalization at
the bottom of the processor loop. -/
def nilFix (s : GoSlice Issue) : GoSlice Issue :=
  if s.isNil then GoSlice.mk [] else s

/-- Result of driving the processor chain: the final slice, the ordered
trace of `Process` invocations, and the accumulated stats map. -/
structure ChainOut where
  issues : GoSlice Issue
  calls : List ProcCall
  stats : StatMap
  deriving DecidableEq, Repr

/-- The loop body of `Runner.processIssues`: for each processor in order,
call `Process`; on error keep the previous issues and stats, otherwise
record the in/out counts and adopt the new issues; then replace a nil
slice by an empty one. -/
def processIssuesAux : List Processor → GoSlice Issue → StatMap → ChainOut
  | [], issues, stats => ⟨issues, [], stats⟩
  | p :: rest, issues, stats =>
    match p.process issues with
    | (newIssues, some e) =>
      let r := processIssuesAux rest (nilFix issues) stats
      ⟨r.issues, ⟨p.name, issues, newIssues, some e⟩ :: r.calls, r.stats⟩
    | (newIssues, none) =>
      let r := processIssuesAux rest (nilFix newIssues)
        (statAdd stats p.name issues.len newIssues.len)
      ⟨r.issues, ⟨p.name, issues, newIssues, none⟩ :: r.calls, r.stats⟩

/-- `Runner.processIssues`, driving the chain stored in the runner. -/
def Runner.processIssues (r : Runner) (issues : GoSlice Issue) (stats : StatMap) : ChainOut :=
  processIssuesAux r.Processors issues stats

/-- The `for _, p := range r.Processors { ... p.Finish() ... }` loop:
the ordered trace of `Finish` invocations. -/
def finishTrace : List Processor → List String
  | [] => []
  | p :: rest => p.name :: finishTrace rest

/-- Result of `Runner.processLintResults`: the returned slice, the chain's
`Process` trace and stats (empty when the chain was skipped), and the
`Finish` trace. -/
structure LintOut where
  out : GoSlice Issue
  calls : List ProcCall
  stats : StatMap
  finished : List String

/-- `Runner.processLintResults`: runs the chain only when the input slice
is non-empty (`outIssues` stays a nil slice otherwise), then finalizes
every processor. -/
def Runner.processLintResults (r : Runner) (inIssues : GoSlice Issue) : LintOut :=
  if inIssues.len ≠ 0 then
    let c := r.processIssues inIssues []
    ⟨c.issues, c.calls, c.stats, finishTrace r.Processors⟩
  else
    ⟨GoSlice.nil, [], [], finishTrace r.Processors⟩

/-- The slice the loop variable `issues` holds after one recorded call:
the stage's output if it succeeded, its untouched input if it errored,
normalized by the nil check. -/
def effAfter (c : ProcCall) : GoSlice Issue :=
  nilFix (match c.err with
    | some _ => c.input
    | none => c.output)

/-- `Chained cur cs fin`: starting from the slice `cur`, the recorded
calls `cs` are linked (each call receives the slice left by the previous
one) and leave `fin` at the end. -/
def Chained : GoSlice Issue → List ProcCall → GoSlice Issue → Prop
  | cur, [], fin => fin = cur
  | cur, c :: cs, fin => c.input = cur ∧ Chained (effAfter c) cs fin

theorem nilFix_isNil (s : GoSlice Issue) : (nilFix s).isNil = false := by
  unfold nilFix
  split
  · rfl
  · next h => simpa using h

theorem effAfter_isNil (c : ProcCall) : (effAfter c).isNil = false :=
  nilFix_isNil _

theorem nilFix_of_nonNil (s : GoSlice Issue) (h : s.isNil = false) : nilFix s = s := by
  unfold nilFix
  simp [h]

theorem elems_nilFix (s : GoSlice Issue) : (nilFix s).elems = s.elems := by
  unfold nilFix
  split
  · next h =>
    cases s with
    | nil => rfl
    | mk l => simp [GoSlice.isNil] at h
  · rfl

theorem calls_length (ps : List Processor) (issues : GoSlice Issue) (stats : StatMap) :
    (processIssuesAux ps issues stats).calls.length = ps.length := by
  induction ps generalizing issues stats with
  | nil => rfl
  | cons p rest ih =>
    cases hp : p.process issues with
    | mk newIssues err =>
      cases err <;> simp [processIssuesAux, hp, ih]

theorem calls_names (ps : List Processor) (issues : GoSlice Issue) (stats : StatMap) :
    (processIssuesAux ps issues stats).calls.map ProcCall.name = ps.map Processor.name := by
  induction ps generalizing issues stats with
  | nil => rfl
  | cons p rest ih =>
    cases hp : p.process issues with
    | mk newIssues err =>
      cases err <;> simp [processIssuesAux, hp, ih]

theorem chained_aux (ps : List Processor) (issues : GoSlice Issue) (stats : StatMap) :
    Chained issues (processIssuesAux ps issues stats).calls
      (processIssuesAux ps issues stats).issues := by
  induction ps generalizing issues stats with
  | nil => exact rfl
  | cons p rest ih =>
    cases hp : p.process issues with
    | mk newIssues err =>
      cases err with
      | none =>
        simp only [processIssuesAux, hp]
        exact ⟨rfl, ih _ _⟩
      | some e =>
        simp only [processIssuesAux, hp]
        exact ⟨rfl, ih _ _⟩

theorem Chained.input_zero {cur fin : GoSlice Issue} {cs : List ProcCall}
    (h : Chained cur cs fin) (hlen : 0 < cs.length) :
    (cs.get ⟨0, hlen⟩).input = cur := by
  cases cs with
  | nil => simp at hlen
  | cons c t => exact h.1

theorem Chained.input_succ {cur fin : GoSlice Issue} {cs : List ProcCall}
    (h : Chained cur cs fin) (i : Nat) (hi : i + 1 < cs.length) :
    (cs.get ⟨i + 1, hi⟩).input = effAfter (cs.get ⟨i, Nat.lt_of_succ_lt hi⟩) := by
  induction cs generalizing cur i with
  | nil => simp at hi
  | cons c t ih =>
    cases i with
    | zero =>
      have h0 : 0 < t.length := by
        have := Nat.lt_of_succ_lt_succ hi
        simpa using this
      simpa using Chained.input_zero h.2 h0
    | succ j =>
      have hj : j + 1 < t.length := by
        have := Nat.lt_of_succ_lt_succ hi
        simpa using this
      simpa using ih h.2 j hj

theorem Chained.final {cur fin : GoSlice Issue} {cs : List ProcCall}
    (h : Chained cur cs fin) (hne : cs ≠ []) :
    fin = effAfter (cs.getLast hne) := by
  induction cs generalizing cur with
  | nil => exact absurd rfl hne
  | cons c t ih =>
    cases t with
    | nil => simpa [List.getLast] using h.2
    | cons d u =>
      have := ih h.2 (by simp)
      simpa [List.getLast] using this

theorem Chained.input_nonNil {cur fin : GoSlice Issue} {cs : List ProcCall}
    (h : Chained cur cs fin) (hc : cur.isNil = false)
    (i : Nat) (hi : i < cs.length) :
    ((cs.get ⟨i, hi⟩).input).isNil = false := by
  cases i with
  | zero => rw [Chained.input_zero h hi]; exact hc
  | succ j => rw [Chained.input_succ h j hi]; exact effAfter_isNil _

theorem aux_issues_nonNil (ps : List Processor) (issues : GoSlice Issue) (stats : StatMap)
    (h : issues.isNil = false) :
    ((processIssuesAux ps issues stats).issues).isNil = false := by
  have hch := chained_aux ps issues stats
  by_cases hne : (processIssuesAux ps issues stats).calls = []
  · rw [hne] at hch
    have hfin : (processIssuesAux ps issues stats).issues = issues := hch
    rw [hfin]
    exact h
  · rw [Chained.final hch hne]
    exact effAfter_isNil _

/-- The observable behavior of one invocation of `lc.Linter.Run(ctx, lintCtx)`
for this run.  The linters themselves are external collaborators, so each
configured linter is summarized by its outcome: a normal return of issues,
a returned error, a panic carrying an already-diagnosed
`*errorutil.PanicError` (with its message and its own captured stack), or a
panic with any other value (the runner captures the stack itself via
`debug.Stack()`). -/
inductive LinterOutcome where
  | ok (issues : GoSlice Issue)
  | failed (e : String)
  | panicKnown (msg stack : String)
  | panicRaw (data stack : String)
  deriving DecidableEq, Repr

/-- Model of `linter.Config`: the linter's name and the outcome of running
it in this run. -/
structure LinterConfig where
  name : String
  run : LinterOutcome
  deriving DecidableEq, Repr

/-- Result of `Runner.runLinterSafe`: the named return values `(ret, err)`
plus the warnings it logged (panics are only observable through these —
`runLinterSafe` never lets a panic escape, which the embedding reflects by
being a total function). -/
structure SafeResult where
  ret : GoSlice Issue
  err : Option String
  warnings : List String
  deriving DecidableEq, Repr

/-- `Runner.runLinterSafe`: runs a linter under `recover`.  A recovered
`*errorutil.PanicError` is only logged, once, with the stack the error
itself carries (`pe.Stack()`), and leaves the named returns at their
zero/current values; any other panic value is logged with `debug.Stack()`
and turned into a returned error with the message
`panic occurred: <data>`.  On a normal error the issues are dropped; on
success every issue with an empty `FromLinter` field is stamped with the
linter's name. -/
def runLinterSafe (lc : LinterConfig) : SafeResult :=
  match lc.run with
  | LinterOutcome.ok issues =>
    ⟨issues.map (fun i => if i.FromLinter = "" then { i with FromLinter := lc.name } else i),
      none, []⟩
  | LinterOutcome.failed e => ⟨GoSlice.nil, some e, []⟩
  | LinterOutcome.panicKnown msg stack =>
    ⟨GoSlice.nil, none, ["Panic: " ++ msg ++ ": " ++ stack]⟩
  | LinterOutcome.panicRaw data stack =>
    ⟨GoSlice.nil, some ("panic occurred: " ++ data), ["Panic stack trace: " ++ stack]⟩

/-- The body of the linter loop in `Runner.Run`, threading the accumulated
`issues` slice and the candidate `runErr`.  `failFast` models the ambient
switch `os.Getenv("GOLANGCI_COM_RUN") == ""`: when it is true an engine
failure is recorded as the run error (each later failure overwriting the
earlier one); the loop never stops early, and a failing engine contributes
no issues. -/
def runStep (failFast : Bool) (acc : GoSlice Issue × Option String) (lc : LinterConfig) :
    GoSlice Issue × Option String :=
  let sr := runLinterSafe lc
  match sr.err with
  | some e => (acc.1, if failFast then some e else acc.2)
  | none => (acc.1.append sr.ret, acc.2)

/-- Result of `Runner.Run`: the slice of issues accumulated from the
linters (`merged`, the argument handed to `processLintResults`), the full
`processLintResults` output, and the returned run-level error. -/
structure RunResult where
  merged : GoSlice Issue
  res : LintOut
  runErr : Option String

/-- `Runner.Run`: runs every configured linter in order through
`runLinterSafe`, appends the issues of the successful ones, then returns
`processLintResults` of the merged slice together with the recorded run
error. -/
def Runner.Run (r : Runner) (failFast : Bool) (linters : List LinterConfig) : RunResult :=
  let acc := linters.foldl (runStep failFast) (GoSlice.nil, none)
  ⟨acc.1, r.processLintResults acc.1, acc.2⟩

/-- Model of `processors.ExcludeRule` (and of the identically shaped
config-side rule that `NewRunner` copies field by field). -/
structure ExcludeRule where
  Text : String
  Source : String
  Path : String
  Linters : List String
  deriving DecidableEq, Repr

/-- The configuration fields `NewRunner` itself reads. -/
structure Config where
  excludePatterns : List String
  useDefaultExcludes : Bool
  skipFiles : List String
  skipDirs : List String
  useDefaultSkipDirs : Bool
  excludeRules : List ExcludeRule

/-- External package data read by `NewRunner`:
`config.GetDefaultExcludePatternsStrings()` and
`packages.StdExcludeDirRegexps`. -/
structure Ext where
  defaultExcludePatterns : List String
  stdExcludeDirRegexps : List String

/-- The processor constructors from the `processors` package, which is an
external collaborator of the runner; each constructor is an opaque
parameter.  Only `NewSkipFiles` and `NewSkipDirs` can fail, and only the
arguments that `NewRunner` itself computes are modelled. -/
structure ProcCtors where
  newCgo : Processor
  newFilenameUnadjuster : Processor
  newPathPrettifier : Processor
  newSkipFiles : List String → Except String Processor
  newSkipDirs : List String → Except String Processor
  newAutogeneratedExclude : Processor
  newIdentifierMarker : Processor
  newExclude : String → Processor
  newExcludeRules : List ExcludeRule → Processor
  newNolint : Processor
  newUniqByLine : Processor
  newDiff : Processor
  newMaxPerFileFromLinter : Processor
  newMaxSameIssues : Processor
  newMaxFromLinter : Processor
  newSourceCode : Processor
  newPathShortener : Processor

/-- The combined exclude pattern: user patterns, extended with the default
patterns when enabled, joined with a bar and wrapped in parentheses when
non-empty. -/
def excludeTotalPatternOf (ext : Ext) (cfg : Config) : String :=
  let excludePatterns :=
    if cfg.useDefaultExcludes then cfg.excludePatterns ++ ext.defaultExcludePatterns
    else cfg.excludePatterns
  if excludePatterns ≠ [] then "(" ++ String.intercalate "|" excludePatterns ++ ")"
  else ""

/-- The skip-dirs list: user dirs, extended with the standard excluded
directory patterns when enabled. -/
def skipDirsOf (ext : Ext) (cfg : Config) : List String :=
  if cfg.useDefaultSkipDirs then cfg.skipDirs ++ ext.stdExcludeDirRegexps
  else cfg.skipDirs

/-- `NewRunner`: builds the fixed processor chain.  The chain order is a
literal list in the source; configuration only influences the arguments of
the individual constructors, never the order.  Construction fails exactly
when `NewSkipFiles` or `NewSkipDirs` fails. -/
def NewRunner (ctors : ProcCtors) (ext : Ext) (cfg : Config) : Except String Runner :=
  match ctors.newSkipFiles cfg.skipFiles with
  | Except.error e => Except.error e
  | Except.ok skipFilesProcessor =>
    match ctors.newSkipDirs (skipDirsOf ext cfg) with
    | Except.error e => Except.error e
    | Except.ok skipDirsProcessor =>
      Except.ok
        { Processors :=
            [ctors.newCgo,
             ctors.newFilenameUnadjuster,
             ctors.newPathPrettifier,
             skipFilesProcessor,
             skipDirsProcessor,
             ctors.newAutogeneratedExclude,
             ctors.newIdentifierMarker,
             ctors.newExclude (excludeTotalPatternOf ext cfg),
             ctors.newExcludeRules (cfg.excludeRules.map
               (fun x => ⟨x.Text, x.Source, x.Path, x.Linters⟩)),
             ctors.newNolint,
             ctors.newUniqByLine,
             ctors.newDiff,
             ctors.newMaxPerFileFromLinter,
             ctors.newMaxSameIssues,
             ctors.newMaxFromLinter,
             ctors.newSourceCode,
             ctors.newPathShortener] }

/-- The error of the last failing linter in the list, if any: in the
runner's loop each later failure overwrites the previously recorded one. -/
def lastErr : List LinterConfig → Option String
  | [] => none
  | lc :: rest =>
    match lastErr rest with
    | some e => some e
    | none => (runLinterSafe lc).err

/-- The concatenation, in configured order, of the issue slices returned
by the linters that succeeded. -/
def succIssuesList (ls : List LinterConfig) : List Issue :=
  (List.map (fun lc => ((runLinterSafe lc).ret).elems)
    (ls.filter (fun lc => ((runLinterSafe lc).err).isNone))).flatten

theorem foldl_runStep_snd (ff : Bool) (ls : List LinterConfig) :
    ∀ (m : GoSlice Issue) (e : Option String),
    (ls.foldl (runStep ff) (m, e)).2 =
      if ff then
        (match lastErr ls with
          | some er => some er
          | none => e)
      else e := by
  induction ls with
  | nil =>
    intro m e
    cases ff <;> simp [lastErr]
  | cons lc rest ih =>
    intro m e
    simp only [List.foldl_cons]
    rw [ih]
    cases ff with
    | false =>
      simp only [if_neg (by decide : ¬ (false = true))]
      unfold runStep
      cases hferr : (runLinterSafe lc).err <;> simp [hferr]
    | true =>
      simp only [if_pos rfl]
      unfold runStep
      cases hferr : (runLinterSafe lc).err with
      | none =>
        cases hrest : lastErr rest <;> simp [lastErr, hferr, hrest]
      | some er2 =>
        cases hrest : lastErr rest <;> simp [lastErr, hferr, hrest]

theorem foldl_runStep_fst (ff : Bool) (ls : List LinterConfig) :
    ∀ (m : GoSlice Issue) (e : Option String),
    (ls.foldl (runStep ff) (m, e)).1.elems = m.elems ++ succIssuesList ls := by
  induction ls with
  | nil =>
    intro m e
    simp [succIssuesList]
  | cons lc rest ih =>
    intro m e
    simp only [List.foldl_cons]
    rw [ih]
    unfold runStep
    cases hferr : (runLinterSafe lc).err with
    | none =>
      simp [succIssuesList, hferr, List.filter_cons]
    | some er =>
      simp [succIssuesList, hferr, List.filter_cons]

theorem lastErr_isSome_iff (ls : List LinterConfig) :
    (lastErr ls).isSome = true ↔
      ∃ lc ∈ ls, ((runLinterSafe lc).err).isSome = true := by
  induction ls with
  | nil => simp [lastErr]
  | cons lc rest ih =>
    simp only [lastErr]
    cases hrest : lastErr rest with
    | some e =>
      have hex : ∃ x ∈ rest, ((runLinterSafe x).err).isSome = true := by
        rw [← ih, hrest]
        rfl
      constructor
      · intro _
        obtain ⟨x, hx, hxe⟩ := hex
        exact ⟨x, List.mem_cons_of_mem _ hx, hxe⟩
      · intro _
        rfl
    | none =>
      have hnex : ¬ ∃ x ∈ rest, ((runLinterSafe x).err).isSome = true := by
        rw [← ih, hrest]
        simp
      constructor
      · intro h
        exact ⟨lc, List.mem_cons_self _ _, h⟩
      · rintro ⟨x, hx, hxe⟩
        rcases List.mem_cons.mp hx with h1 | h2
        · subst h1
          exact hxe
        · exact absurd ⟨x, h2, hxe⟩ hnex

theorem lastErr_eq_none_of_all_ok (l2 : List LinterConfig)
    (h : ∀ x ∈ l2, (runLinterSafe x).err = none) : lastErr l2 = none := by
  induction l2 with
  | nil => rfl
  | cons x t ih =>
    simp only [lastErr]
    rw [ih (fun y hy => h y (List.mem_cons_of_mem _ hy))]
    exact h x (List.mem_cons_self _ _)

theorem lastErr_append_of_isSome (l1 xs : List LinterConfig)
    (h : (lastErr xs).isSome = true) : lastErr (l1 ++ xs) = lastErr xs := by
  induction l1 with
  | nil => simp
  | cons a t ih =>
    simp only [List.cons_append, lastErr, List.append_eq]
    rw [ih]
    obtain ⟨e, he⟩ := Option.isSome_iff_exists.mp h
    rw [he]

theorem Run_runErr (r : Runner) (ff : Bool) (ls : List LinterConfig) :
    (r.Run ff ls).runErr = if ff then lastErr ls else none := by
  unfold Runner.Run
  simp only
  rw [foldl_runStep_snd]
  cases ff with
  | false => simp
  | true =>
    simp only [if_pos rfl]
    cases lastErr ls <;> rfl

theorem Run_merged (r : Runner) (ff : Bool) (ls : List LinterConfig) :
    (r.Run ff ls).merged.elems = succIssuesList ls := by
  unfold Runner.Run
  simp only
  rw [foldl_runStep_fst]
  rfl

theorem finishTrace_eq (ps : List Processor) :
    finishTrace ps = ps.map Processor.name := by
  induction ps with
  | nil => rfl
  | cons p rest ih => simp [finishTrace, ih]

theorem Chained.getLast_input_nonNil {cur fin : GoSlice Issue} {cs : List ProcCall}
    (h : Chained cur cs fin) (hc : cur.isNil = false) (hne : cs ≠ []) :
    ((cs.getLast hne).input).isNil = false := by
  induction cs generalizing cur with
  | nil => exact absurd rfl hne
  | cons c t ih =>
    cases t with
    | nil =>
      have h1 : c.input = cur := h.1
      simp [List.getLast, h1, hc]
    | cons d u =>
      have := ih h.2 (effAfter_isNil c) (by simp)
      simpa [List.getLast] using this

/-! Concrete instances used by the witnesses and counterexamples below. -/

/-- A sample issue whose provenance field is empty. -/
def issueA : Issue := ⟨"", "first finding"⟩

/-- A sample issue already tagged with a different provenance. -/
def issueB : Issue := ⟨"meta", "second finding"⟩

/-- A processor that passes its input through unchanged. -/
def trivialProc (n : String) : Processor := ⟨n, fun s => (s, none)⟩

/-- A processor that always reports an error. -/
def errProc : Processor := ⟨"failing stage", fun s => (s, some "stage error")⟩

/-- A three-stage runner whose middle stage fails. -/
def sampleRunner : Runner := ⟨[trivialProc "stage one", errProc, trivialProc "stage two"]⟩

/-- A linter that succeeds with two issues. -/
def ltrOkA : LinterConfig := ⟨"alpha", LinterOutcome.ok (GoSlice.mk [issueA, issueB])⟩

/-- A linter that returns an error. -/
def ltrFailB : LinterConfig := ⟨"beta", LinterOutcome.failed "beta exploded"⟩

/-- Another linter that returns an error. -/
def ltrFailC : LinterConfig := ⟨"gamma", LinterOutcome.failed "gamma exploded"⟩

/-- A linter that panics with an already-diagnosed fault. -/
def ltrPanicKnownD : LinterConfig :=
  ⟨"delta", LinterOutcome.panicKnown "known fault" "goroutine stack"⟩

/-- A linter that panics with a raw fault. -/
def ltrPanicRawE : LinterConfig :=
  ⟨"epsilon", LinterOutcome.panicRaw "raw fault" "runner stack"⟩

/-- Sample constructor set for the processor chain. -/
def sampleCtors : ProcCtors :=
  { newCgo := trivialProc "cgo"
    newFilenameUnadjuster := trivialProc "filename_unadjuster"
    newPathPrettifier := trivialProc "path_prettifier"
    newSkipFiles := fun _ => Except.ok (trivialProc "skip_files")
    newSkipDirs := fun _ => Except.ok (trivialProc "skip_dirs")
    newAutogeneratedExclude := trivialProc "autogenerated_exclude"
    newIdentifierMarker := trivialProc "identifier_marker"
    newExclude := fun _ => trivialProc "exclude"
    newExcludeRules := fun _ => trivialProc "exclude_rules"
    newNolint := trivialProc "nolint"
    newUniqByLine := trivialProc "uniq_by_line"
    newDiff := trivialProc "diff"
    newMaxPerFileFromLinter := trivialProc "max_per_file_from_linter"
    newMaxSameIssues := trivialProc "max_same_issues"
    newMaxFromLinter := trivialProc "max_from_linter"
    newSourceCode := trivialProc "source_code"
    newPathShortener := trivialProc "path_shortener" }

/-- Sample external package data. -/
def sampleExt : Ext := ⟨[], []⟩

/-- Sample configuration. -/
def sampleCfg : Config := ⟨[], false, [], [], false, []⟩

/-- The runner `NewRunner` builds from the sample constructors. -/
def sampleChainRunner : Runner :=
  ⟨[trivialProc "cgo", trivialProc "filename_unadjuster", trivialProc "path_prettifier",
    trivialProc "skip_files", trivialProc "skip_dirs", trivialProc "autogenerated_exclude",
    trivialProc "identifier_marker", trivialProc "exclude", trivialProc "exclude_rules",
    trivialProc "nolint", trivialProc "uniq_by_line", trivialProc "diff",
    trivialProc "max_per_file_from_linter", trivialProc "max_same_issues",
    trivialProc "max_from_linter", trivialProc "source_code", trivialProc "path_shortener"]⟩

/-! Claim theorems. -/

/-- C1, counterexample to the claim as stated: for the empty (non-nil)
input slice, `processLintResults` skips the chain, so the declared-but-
never-assigned `outIssues` — a nil slice — is returned: the result is
absent, not an empty sequence. -/
theorem C1_counterexample :
    ((sampleRunner.processLintResults (GoSlice.mk [])).out).isNil = true := by
  decide

/-- C1 (amended): for every non-empty input issue slice the list returned
by `processLintResults` is non-nil — in particular no stage's nil output
is ever propagated as the chain's result, since the loop replaces a nil
slice by an empty one after every stage; for an input of length zero the
chain is skipped and the returned slice is the nil slice. -/
theorem C1_chain_output_nilness (r : Runner) (inIssues : GoSlice Issue) :
    (inIssues.len ≠ 0 → ((r.processLintResults inIssues).out).isNil = false) ∧
    (inIssues.len = 0 → (r.processLintResults inIssues).out = GoSlice.nil) := by
  by_cases hc : inIssues.len = 0
  · constructor
    · intro hne
      exact absurd hc hne
    · intro _
      simp [Runner.processLintResults, hc]
  · constructor
    · intro hne
      have h1 : inIssues.isNil = false := GoSlice.isNil_false_of_len_ne_zero _ hne
      simp only [Runner.processLintResults, if_pos hne]
      exact aux_issues_nonNil _ _ _ h1
    · intro h0
      exact absurd h0 hc

/-- C1 witness: a concrete non-empty input yields a non-nil output. -/
theorem C1_witness :
    ((sampleRunner.processLintResults (GoSlice.mk [issueA])).out).isNil = false :=
  (C1_chain_output_nilness sampleRunner (GoSlice.mk [issueA])).1 (by decide)

/-- C2: the run-level error of `Runner.Run` is non-nil exactly when
fail-fast semantics are configured (the ambient `GOLANGCI_COM_RUN` switch
is empty) and some engine's `runLinterSafe` failed; in particular with
failures configured non-fatal the error is nil even if engines failed,
and the run always returns the processed (best-effort filtered) issue
list of the merged slice. -/
theorem C2_runErr_iff_failFast_and_failure (r : Runner) (ff : Bool)
    (ls : List LinterConfig) :
    (((r.Run ff ls).runErr).isSome = true ↔
      ff = true ∧ ∃ lc ∈ ls, ((runLinterSafe lc).err).isSome = true) ∧
    (r.Run ff ls).res = r.processLintResults (r.Run ff ls).merged := by
  constructor
  · rw [Run_runErr]
    cases ff with
    | false => simp
    | true => simp [lastErr_isSome_iff]
  · rfl

/-- C3: a processor whose `Process` call errors leaves the issue slice
unchanged — the slice passed to the next processor (or returned, if it was
the last) equals the slice passed into the erroring processor — and every
processor of the chain still runs (one recorded call per processor). -/
theorem C3_processor_error_passthrough (r : Runner) (inIssues : GoSlice Issue)
    (stats : StatMap) (h : inIssues.isNil = false) :
    ((r.processIssues inIssues stats).calls.length = r.Processors.length) ∧
    (∀ (i : Nat) (hi : i + 1 < (r.processIssues inIssues stats).calls.length),
      (((r.processIssues inIssues stats).calls.get
          ⟨i, Nat.lt_of_succ_lt hi⟩).err).isSome = true →
      ((r.processIssues inIssues stats).calls.get ⟨i + 1, hi⟩).input =
        ((r.processIssues inIssues stats).calls.get ⟨i, Nat.lt_of_succ_lt hi⟩).input) ∧
    (∀ hne : (r.processIssues inIssues stats).calls ≠ [],
      (((r.processIssues inIssues stats).calls.getLast hne).err).isSome = true →
      (r.processIssues inIssues stats).issues =
        ((r.processIssues inIssues stats).calls.getLast hne).input) := by
  have hch : Chained inIssues (r.processIssues inIssues stats).calls
      (r.processIssues inIssues stats).issues := chained_aux r.Processors inIssues stats
  refine ⟨calls_length _ _ _, ?_, ?_⟩
  · intro i hi herr
    rw [Chained.input_succ hch i hi]
    obtain ⟨e, he⟩ := Option.isSome_iff_exists.mp herr
    have heff : effAfter ((r.processIssues inIssues stats).calls.get
        ⟨i, Nat.lt_of_succ_lt hi⟩) =
        nilFix (((r.processIssues inIssues stats).calls.get
          ⟨i, Nat.lt_of_succ_lt hi⟩).input) := by
      unfold effAfter
      rw [he]
    rw [heff, nilFix_of_nonNil _ (Chained.input_nonNil hch h i (Nat.lt_of_succ_lt hi))]
  · intro hne herr
    rw [Chained.final hch hne]
    obtain ⟨e, he⟩ := Option.isSome_iff_exists.mp herr
    have heff : effAfter ((r.processIssues inIssues stats).calls.getLast hne) =
        nilFix (((r.processIssues inIssues stats).calls.getLast hne).input) := by
      unfold effAfter
      rw [he]
    rw [heff, nilFix_of_nonNil _ (Chained.getLast_input_nonNil hch h hne)]

/-- C3 witness: in the sample runner the second stage errors on one
concrete issue, and the third stage receives exactly what the second
received. -/
theorem C3_witness :
    ((sampleRunner.processIssues (GoSlice.mk [issueA]) []).calls.get ⟨2, by decide⟩).input =
      ((sampleRunner.processIssues (GoSlice.mk [issueA]) []).calls.get ⟨1, by decide⟩).input :=
  ((C3_processor_error_passthrough sampleRunner (GoSlice.mk [issueA]) [] rfl).2.1)
    1 (by decide) (by decide)

/-- C4: a panic inside an engine never escapes `runLinterSafe` (the
embedding is a total function over all linter outcomes): a raw panic is
logged with the runner's own stack trace and converted into a returned
error carrying the message prefixed by `panic occurred`, while an
already-diagnosed `PanicError` is only logged — once, with the stack the
error itself carries — and leaves the returned error nil. -/
theorem C4_panic_isolated (lc : LinterConfig) :
    (∀ d s, lc.run = LinterOutcome.panicRaw d s →
      (runLinterSafe lc).err = some ("panic occurred: " ++ d) ∧
      (runLinterSafe lc).warnings = ["Panic stack trace: " ++ s]) ∧
    (∀ m s, lc.run = LinterOutcome.panicKnown m s →
      (runLinterSafe lc).err = none ∧
      (runLinterSafe lc).warnings = ["Panic: " ++ m ++ ": " ++ s]) := by
  constructor
  · intro d s hrun
    simp [runLinterSafe, hrun]
  · intro m s hrun
    simp [runLinterSafe, hrun]

/-- C4 witness: one concrete raw-panicking linter and one concrete
already-diagnosed-panicking linter. -/
theorem C4_witness :
    (runLinterSafe ltrPanicRawE).err = some ("panic occurred: " ++ "raw fault") ∧
    (runLinterSafe ltrPanicKnownD).err = none :=
  ⟨((C4_panic_isolated ltrPanicRawE).1 "raw fault" "runner stack" rfl).1,
   ((C4_panic_isolated ltrPanicKnownD).2 "known fault" "goroutine stack" rfl).1⟩

/-- C5: when `runLinterSafe` returns without error and the linter's name
is non-empty, every returned issue has a non-empty `FromLinter` field; an
issue whose field was empty is stamped with the linter's name and an issue
whose field was already set is returned with it unchanged. -/
theorem C5_provenance_stamped (lc : LinterConfig) (hname : lc.name ≠ "")
    (hok : (runLinterSafe lc).err = none) :
    (∀ i ∈ ((runLinterSafe lc).ret).elems, i.FromLinter ≠ "") ∧
    (∀ is, lc.run = LinterOutcome.ok is →
      ((runLinterSafe lc).ret).elems = is.elems.map
        (fun i => if i.FromLinter = "" then { i with FromLinter := lc.name } else i)) := by
  cases hrun : lc.run with
  | ok is =>
    have hret : (runLinterSafe lc).ret =
        is.map (fun i => if i.FromLinter = "" then { i with FromLinter := lc.name } else i) := by
      unfold runLinterSafe
      rw [hrun]
    constructor
    · intro i hi
      rw [hret, GoSlice.elems_map] at hi
      obtain ⟨j, hj, hji⟩ := List.mem_map.mp hi
      rw [← hji]
      by_cases hjf : j.FromLinter = ""
      · simp only [hjf, if_pos rfl]
        exact hname
      · simp only [if_neg hjf]
        exact hjf
    · intro is2 hrun2
      injection hrun2 with h4
      subst h4
      rw [hret, GoSlice.elems_map]
  | failed e =>
    have hret : (runLinterSafe lc).err = some e := by
      unfold runLinterSafe
      rw [hrun]
    rw [hret] at hok
    exact Option.noConfusion hok
  | panicKnown m s =>
    have hret : (runLinterSafe lc).ret = GoSlice.nil := by
      unfold runLinterSafe
      rw [hrun]
    constructor
    · intro i hi
      rw [hret] at hi
      simp [GoSlice.elems] at hi
    · intro is2 hrun2
      exact LinterOutcome.noConfusion hrun2
  | panicRaw d s =>
    have hret : (runLinterSafe lc).err = some ("panic occurred: " ++ d) := by
      unfold runLinterSafe
      rw [hrun]
    rw [hret] at hok
    exact Option.noConfusion hok

/-- C5 witness: a concrete linter returning one untagged and one
already-tagged issue; the untagged one is stamped, the tagged one kept. -/
theorem C5_witness :
    ((runLinterSafe ltrOkA).ret).elems =
      (GoSlice.mk [issueA, issueB]).elems.map
        (fun i => if i.FromLinter = "" then { i with FromLinter := ltrOkA.name } else i) :=
  (C5_provenance_stamped ltrOkA (by decide) rfl).2 (GoSlice.mk [issueA, issueB]) rfl

/-- C6: the merged slice handed to the processor chain is exactly the
concatenation, in configured engine order, of the (stamped) issue slices
of the engines that succeeded — each engine's own output order preserved,
failing engines contributing nothing — and the run's result is the
processing of exactly that merged slice. -/
theorem C6_merge_of_successful_engines (r : Runner) (ff : Bool)
    (ls : List LinterConfig) :
    (r.Run ff ls).merged.elems =
      (List.map (fun lc => ((runLinterSafe lc).ret).elems)
        (ls.filter (fun lc => ((runLinterSafe lc).err).isNone))).flatten ∧
    (r.Run ff ls).res = r.processLintResults (r.Run ff ls).merged :=
  ⟨Run_merged r ff ls, rfl⟩

/-- C7: the processor chain is fixed at construction: whenever `NewRunner`
succeeds, the stored processor list is the literal seventeen-stage
sequence in the documented order (cgo and filename normalization, path
prettifying, skip-files, skip-dirs, autogenerated exclusion, identifier
marking, pattern exclusion, rule exclusion, nolint suppression,
uniq-by-line dedup, diff, the three caps, source attachment, path
shortening), for every configuration; and execution performs one `Process`
call per stored processor, in exactly that order, each non-erroring
stage's output (as a sequence of issues) becoming the next stage's
input. -/
theorem C7_fixed_chain_order (ctors : ProcCtors) (ext : Ext) (cfg : Config)
    (sf sd : Processor) (r : Runner)
    (hsf : ctors.newSkipFiles cfg.skipFiles = Except.ok sf)
    (hsd : ctors.newSkipDirs (skipDirsOf ext cfg) = Except.ok sd)
    (hr : NewRunner ctors ext cfg = Except.ok r) :
    r.Processors = [ctors.newCgo, ctors.newFilenameUnadjuster, ctors.newPathPrettifier,
      sf, sd, ctors.newAutogeneratedExclude, ctors.newIdentifierMarker,
      ctors.newExclude (excludeTotalPatternOf ext cfg),
      ctors.newExcludeRules (cfg.excludeRules.map
        (fun x => ⟨x.Text, x.Source, x.Path, x.Linters⟩)),
      ctors.newNolint, ctors.newUniqByLine, ctors.newDiff,
      ctors.newMaxPerFileFromLinter, ctors.newMaxSameIssues, ctors.newMaxFromLinter,
      ctors.newSourceCode, ctors.newPathShortener] ∧
    ∀ (issues : GoSlice Issue) (stats : StatMap),
      (r.processIssues issues stats).calls.map ProcCall.name =
        r.Processors.map Processor.name ∧
      ∀ (i : Nat) (hi : i + 1 < (r.processIssues issues stats).calls.length),
        ((r.processIssues issues stats).calls.get ⟨i, Nat.lt_of_succ_lt hi⟩).err = none →
        (((r.processIssues issues stats).calls.get ⟨i + 1, hi⟩).input).elems =
          (((r.processIssues issues stats).calls.get
            ⟨i, Nat.lt_of_succ_lt hi⟩).output).elems := by
  constructor
  · unfold NewRunner at hr
    simp only [hsf, hsd] at hr
    injection hr with h3
    subst h3
    rfl
  · intro issues stats
    have hch : Chained issues (r.processIssues issues stats).calls
        (r.processIssues issues stats).issues := chained_aux r.Processors issues stats
    refine ⟨calls_names _ _ _, ?_⟩
    intro i hi herr
    rw [Chained.input_succ hch i hi]
    have heff : effAfter ((r.processIssues issues stats).calls.get
        ⟨i, Nat.lt_of_succ_lt hi⟩) =
        nilFix (((r.processIssues issues stats).calls.get
          ⟨i, Nat.lt_of_succ_lt hi⟩).output) := by
      unfold effAfter
      rw [herr]
    rw [heff, elems_nilFix]

/-- C7 witness: a concrete constructor set and configuration for which
`NewRunner` succeeds with the documented chain. -/
theorem C7_witness :
    sampleChainRunner.Processors = [sampleCtors.newCgo, sampleCtors.newFilenameUnadjuster,
      sampleCtors.newPathPrettifier, trivialProc "skip_files", trivialProc "skip_dirs",
      sampleCtors.newAutogeneratedExclude, sampleCtors.newIdentifierMarker,
      sampleCtors.newExclude (excludeTotalPatternOf sampleExt sampleCfg),
      sampleCtors.newExcludeRules (sampleCfg.excludeRules.map
        (fun x => ⟨x.Text, x.Source, x.Path, x.Linters⟩)),
      sampleCtors.newNolint, sampleCtors.newUniqByLine, sampleCtors.newDiff,
      sampleCtors.newMaxPerFileFromLinter, sampleCtors.newMaxSameIssues,
      sampleCtors.newMaxFromLinter, sampleCtors.newSourceCode,
      sampleCtors.newPathShortener] :=
  (C7_fixed_chain_order sampleCtors sampleExt sampleCfg (trivialProc "skip_files")
    (trivialProc "skip_dirs") sampleChainRunner rfl rfl rfl).1

/-- C8: after the chain has run (or been skipped), `Finish` is invoked
exactly once on every processor, in the chain's order, as part of
producing the returned result — regardless of the input and of any stage
errors. -/
theorem C8_finish_all_in_order (r : Runner) (inIssues : GoSlice Issue) :
    (r.processLintResults inIssues).finished = r.Processors.map Processor.name := by
  unfold Runner.processLintResults
  split <;> exact finishTrace_eq _

/-- C9: with fail-fast semantics, the run-level error is the error of the
last failing engine in configured order — each later failure overwrites
the previously recorded one. -/
theorem C9_last_failure_wins (r : Runner) (l1 l2 : List LinterConfig)
    (lc : LinterConfig)
    (hfail : ((runLinterSafe lc).err).isSome = true)
    (hrest : ∀ x ∈ l2, (runLinterSafe x).err = none) :
    (r.Run true (l1 ++ lc :: l2)).runErr = (runLinterSafe lc).err := by
  rw [Run_runErr, if_pos rfl]
  have h3 := lastErr_eq_none_of_all_ok l2 hrest
  have h2 : lastErr (lc :: l2) = (runLinterSafe lc).err := by
    simp only [lastErr, h3]
  rw [lastErr_append_of_isSome l1 (lc :: l2) (by rw [h2]; exact hfail), h2]

/-- C9 witness: two failing linters in order; the recorded run error is
the second one's. -/
theorem C9_witness :
    (sampleRunner.Run true [ltrFailB, ltrFailC, ltrOkA]).runErr =
      (runLinterSafe ltrFailC).err :=
  C9_last_failure_wins sampleRunner [ltrFailB] [ltrOkA] ltrFailC rfl (by decide)

/-- C10: when the merged issue slice is empty the chain is skipped — no
`Process` call is recorded and no per-stage statistics are accumulated —
yet `Finish` is still invoked on every processor, in order. -/
theorem C10_empty_input_skips_chain (r : Runner) (inIssues : GoSlice Issue)
    (h : inIssues.len = 0) :
    (r.processLintResults inIssues).calls = [] ∧
    (r.processLintResults inIssues).stats = [] ∧
    (r.processLintResults inIssues).finished = r.Processors.map Processor.name := by
  have hcond : ¬ inIssues.len ≠ 0 := by simp [h]
  unfold Runner.processLintResults
  rw [if_neg hcond]
  exact ⟨rfl, rfl, finishTrace_eq _⟩

/-- C10 witness: the nil input slice on the sample runner. -/
theorem C10_witness :
    (sampleRunner.processLintResults GoSlice.nil).calls = [] ∧
    (sampleRunner.processLintResults GoSlice.nil).stats = [] ∧
    (sampleRunner.processLintResults GoSlice.nil).finished =
      sampleRunner.Processors.map Processor.name :=
  C10_empty_input_skips_chain sampleRunner GoSlice.nil rfl

end Lint
